import Mathlib

/-!
# Verification of the anonymization subsystem of `feedback_analyzer`

Shallow embedding of `src/feedback_analyzer/sub_agents/anonymization_agent.py`
(and, where noted, of the near-duplicate `src/my_agent` variant).  Python
strings are modelled as `List Char`; the process-wide two-level dict
`_anonymization_cache` is modelled as an association list threaded through
every operation; Python dict results are modelled as Lean structures whose
fields are exactly the keys the source puts in the returned dict (fields
that the source only adds on some paths are `Option`s, `none` meaning the
key is absent).  The 8-hex-character SHA-256 digest is an abstract
parameter `digest : Str → Str` standing for
`hashlib.sha256(hash_input).hexdigest()[:8]`; no theorem below depends on
any property of SHA-256, and counterexamples are stated at concrete digest
functions, for which they hold independently of the digest's values.
-/

namespace FeedbackAnalyzer

/-- Characters of the embedded Python strings. -/
abbrev Str := List Char

/-- Shorthand for embedding Lean string literals. -/
def str (s : String) : Str := s.toList

/-- Association-list lookup, modelling Python `d[k]` / `k in d` / `d.get`. -/
def getk (k : Str) : List (Str × α) → Option α
  | [] => none
  | (k', v) :: rest => if k' = k then some v else getk k rest

/-- Association-list update, modelling Python `d[k] = v`. -/
def setk (k : Str) (v : α) : List (Str × α) → List (Str × α)
  | [] => [(k, v)]
  | (k', v') :: rest => if k' = k then (k, v) :: rest else (k', v') :: setk k v rest

/-- Inner dict of `_anonymization_cache`: `category:value ↦ placeholder`. -/
abbrev Bucket := List (Str × Str)

/-- The module-level `_anonymization_cache: dict[str, dict[str, str]]`,
keyed by salt. -/
abbrev Cache := List (Str × Bucket)

/-- `_anonymization_cache.get(salt, {})`. -/
def bucketOf (salt : Str) (cache : Cache) : Bucket := (getk salt cache).getD []

/-- Python `str.upper()` (the source only ever uppercases ASCII category
names; `Char.toUpper` agrees with Python on ASCII). -/
def pyUpper (s : Str) : Str := s.map Char.toUpper

/-- `cache_key = f"{pii_type}:{original}"` (line 45 of the source). -/
def cacheKey (piiType original : Str) : Str := piiType ++ ':' :: original

/-- The value computed on a cache miss in `_generate_anonymous_value`
(lines 50–54): `f"[{pii_type.upper()}_{hash_suffix}]"` with
`hash_suffix = sha256(f"{salt}{original}".encode()).hexdigest()[:8]`,
the digest being the abstract parameter. -/
def freshAnonymousValue (digest : Str → Str) (original piiType salt : Str) : Str :=
  '[' :: (pyUpper piiType ++ '_' :: (digest (salt ++ original) ++ [']']))

/-- `_generate_anonymous_value` (lines 34–60): look the composite key up in
the salt's bucket, return the hit, otherwise compute the fresh placeholder,
store it (creating the salt bucket if absent) and return it.  The cache is
threaded explicitly in place of the module-global mutation. -/
def generateAnonymousValue (digest : Str → Str) (original piiType salt : Str)
    (cache : Cache) : Str × Cache :=
  match getk (cacheKey piiType original) (bucketOf salt cache) with
  | some v => (v, cache)
  | none =>
      let anonymousValue := freshAnonymousValue digest original piiType salt
      (anonymousValue,
        setk salt (setk (cacheKey piiType original) anonymousValue (bucketOf salt cache)) cache)

/-- Python `s.replace(old, new)` for nonempty `old`: scan left to right,
replace each leftmost non-overlapping occurrence.  (Every call site in the
source passes a nonempty `old`: `replace_sensitive_values` guards with
`if value`, and the PII regexes only produce nonempty matches.  For
`old = []` this model returns `s` unchanged, a case no modelled call
reaches.) -/
def strReplaceFuel (old new : Str) : Nat → Str → Str
  | _, [] => []
  | 0, s => s
  | fuel + 1, c :: rest =>
    if old ≠ [] ∧ old <+: (c :: rest) then
      new ++ strReplaceFuel old new fuel (List.drop old.length (c :: rest))
    else
      c :: strReplaceFuel old new fuel rest

/-- `s.replace(old, new)` proper: the fuel `s.length` always suffices, and
`strReplaceFuel_irrel` below shows the fuel encoding is inessential. -/
def strReplace (old new s : Str) : Str := strReplaceFuel old new s.length s

theorem strReplaceFuel_congr (old new : Str) :
    ∀ f1 f2 s, s.length ≤ f1 → s.length ≤ f2 →
      strReplaceFuel old new f1 s = strReplaceFuel old new f2 s := by
  intro f1
  induction f1 with
  | zero =>
    intro f2 s h1 _
    have : s = [] := List.eq_nil_of_length_eq_zero (Nat.le_zero.mp h1)
    subst this
    cases f2 <;> rfl
  | succ f1 ih =>
    intro f2 s h1 h2
    cases s with
    | nil => cases f2 <;> rfl
    | cons c rest =>
      cases f2 with
      | zero => simp at h2
      | succ f2 =>
        show (if old ≠ [] ∧ old <+: (c :: rest) then
            new ++ strReplaceFuel old new f1 (List.drop old.length (c :: rest))
          else c :: strReplaceFuel old new f1 rest) =
          (if old ≠ [] ∧ old <+: (c :: rest) then
            new ++ strReplaceFuel old new f2 (List.drop old.length (c :: rest))
          else c :: strReplaceFuel old new f2 rest)
        simp only [List.length_cons] at h1 h2
        by_cases h : old ≠ [] ∧ old <+: (c :: rest)
        · rw [if_pos h, if_pos h]
          have hlen : 0 < old.length := List.length_pos.mpr h.1
          have hd1 : (List.drop old.length (c :: rest)).length ≤ f1 := by
            simp only [List.length_drop, List.length_cons]
            omega
          have hd2 : (List.drop old.length (c :: rest)).length ≤ f2 := by
            simp only [List.length_drop, List.length_cons]
            omega
          rw [ih f2 _ hd1 hd2]
        · rw [if_neg h, if_neg h, ih f2 rest (by omega) (by omega)]

theorem strReplaceFuel_irrel (old new : Str) (fuel : Nat) (s : Str)
    (h : s.length ≤ fuel) : strReplaceFuel old new fuel s = strReplace old new s :=
  strReplaceFuel_congr old new fuel s.length s h (le_refl _)

/-- The defining equation of `strReplace` on a nonempty string: replace a
leftmost match and continue past it, otherwise keep the head character. -/
theorem strReplace_cons (old new : Str) (c : Char) (rest : Str) :
    strReplace old new (c :: rest) =
      if old ≠ [] ∧ old <+: (c :: rest) then
        new ++ strReplace old new (List.drop old.length (c :: rest))
      else
        c :: strReplace old new rest := by
  show (if old ≠ [] ∧ old <+: (c :: rest) then
      new ++ strReplaceFuel old new rest.length (List.drop old.length (c :: rest))
    else c :: strReplaceFuel old new rest.length rest) = _
  by_cases h : old ≠ [] ∧ old <+: (c :: rest)
  · rw [if_pos h, if_pos h]
    have hd' : (List.drop old.length (c :: rest)).length ≤ rest.length := by
      have h1 : 0 < old.length := List.length_pos.mpr h.1
      simp only [List.length_drop, List.length_cons]
      omega
    rw [strReplaceFuel_irrel _ _ _ _ hd']
  · rw [if_neg h, if_neg h]
    rfl

/-- One element of the `values` argument of `replace_sensitive_values`,
for well-shaped input: a dict carrying the keys `value` and `type` with
string values. -/
structure SpanItem where
  value : Str
  type : Str
deriving DecidableEq

/-- One element of the `replacements` list built by
`replace_sensitive_values`. -/
structure Replacement where
  original : Str
  type : Str
  replacement : Str
deriving DecidableEq

/-- The dict returned by `replace_sensitive_values`.  The two early
returns omit the `items_replaced` key, hence the `Option`. -/
structure ReplaceResult where
  status : Str
  anonymized_text : Str
  replacements : List Replacement
  items_replaced : Option Nat
deriving DecidableEq

/-- Stable insertion for the descending-by-value-length order: an element
inserted from the left goes before every element whose key is not larger,
so equal keys keep their original relative order. -/
def insertByLenDesc (x : SpanItem) : List SpanItem → List SpanItem
  | [] => [x]
  | y :: ys =>
    if y.value.length ≤ x.value.length then x :: y :: ys
    else y :: insertByLenDesc x ys

/-- `sorted(values, key=lambda x: len(x.get("value", "")), reverse=True)`
(line 103): Python's sort is stable, and `reverse=True` reverses the key
comparison without disturbing ties, so it equals this stable insertion
sort by descending value length. -/
def sortByLenDesc (l : List SpanItem) : List SpanItem := l.foldr insertByLenDesc []

/-- The `for item in sorted_values` loop of `replace_sensitive_values`
(lines 105–118): for each item, if its value is truthy (nonempty) and a
substring of the current text, generate the placeholder, replace all
occurrences, and record one entry. -/
def rsvLoop (digest : Str → Str) (salt : Str) :
    List SpanItem → Str → List Replacement → Cache → Str × List Replacement × Cache
  | [], text, reps, cache => (text, reps, cache)
  | item :: rest, text, reps, cache =>
    if item.value ≠ [] ∧ item.value <:+: text then
      let g := generateAnonymousValue digest item.value item.type salt cache
      rsvLoop digest salt rest (strReplace item.value g.1 text)
        (reps ++ [⟨item.value, item.type, g.1⟩]) g.2
    else
      rsvLoop digest salt rest text reps cache

/-- `replace_sensitive_values` (lines 63–125), for well-shaped `values`
(each a dict with string `value` and `type`).  `if not text` and
`if not values` are the emptiness checks on the early returns. -/
def replaceSensitiveValues (digest : Str → Str) (text : Str) (values : List SpanItem)
    (salt : Str) (cache : Cache) : ReplaceResult × Cache :=
  if text = [] then
    (⟨str "success", [], [], none⟩, cache)
  else if values = [] then
    (⟨str "success", text, [], none⟩, cache)
  else
    let out := rsvLoop digest salt (sortByLenDesc values) text [] cache
    (⟨str "success", out.1, out.2.1, some out.2.1.length⟩, out.2.2)

/-- The dict returned by `anonymize_pii_patterns`.  The early return for
empty text omits the `pii_found` key, hence the `Option`. -/
structure PiiResult where
  status : Str
  anonymized_text : Str
  detections : List Str
  pii_found : Option Bool
deriving DecidableEq

/-- The `for match in matches` inner loop of `anonymize_pii_patterns`
(lines 152–157): generate a placeholder for the matched literal, replace
all its occurrences, and record the category once. -/
def appMatchLoop (digest : Str → Str) (salt piiType : Str) :
    List Str → Str → List Str → Cache → Str × List Str × Cache
  | [], text, detections, cache => (text, detections, cache)
  | m :: ms, text, detections, cache =>
    let g := generateAnonymousValue digest m piiType salt cache
    appMatchLoop digest salt piiType ms (strReplace m g.1 text)
      (if piiType ∈ detections then detections else detections ++ [piiType]) g.2

/-- The `for pii_type, pattern in PII_PATTERNS.items()` loop (lines
151–157): each pattern's `findall` runs once on the text as it stands,
then its matches are substituted in order. -/
def appPatternLoop (digest : Str → Str) (salt : Str) :
    List (Str × (Str → List Str)) → Str → List Str → Cache → Str × List Str × Cache
  | [], text, detections, cache => (text, detections, cache)
  | (piiType, findAll) :: rest, text, detections, cache =>
    let out := appMatchLoop digest salt piiType (findAll text) text detections cache
    appPatternLoop digest salt rest out.1 out.2.1 out.2.2

/-- `anonymize_pii_patterns` (lines 128–164).  The fixed `PII_PATTERNS`
table is abstracted as a list of `(category, findall)` pairs, `findall`
standing for `pattern.findall` of the compiled regex (a pure function of
the text); no claim below depends on the concrete regex semantics. -/
def anonymizePiiPatterns (digest : Str → Str) (patterns : List (Str × (Str → List Str)))
    (text : Str) (salt : Str) (cache : Cache) : PiiResult × Cache :=
  if text = [] then
    (⟨str "success", [], [], none⟩, cache)
  else
    let out := appPatternLoop digest salt patterns text [] cache
    (⟨str "success", out.1, out.2.1, some (decide (0 < out.2.1.length))⟩, out.2.2)

/-- The dict returned by `anonymize_identifiers` on its success path. -/
structure AnonIdsResult where
  status : Str
  anonymized_message : List (Str × Str)
  anonymizations_performed : List Str
deriving DecidableEq

/-- `id_fields = ["message_id", "thread_id", "org_id", "user_id", "tenant_id"]`
(line 190). -/
def idFields : List Str :=
  [str "message_id", str "thread_id", str "org_id", str "user_id", str "tenant_id"]

/-- One step of the `for field in id_fields` loop (lines 191–197): the
presence/truthiness test reads the original `message`; the write goes to
the copy. -/
def anonIdField (digest : Str → Str) (message : List (Str × Str)) (salt : Str)
    (acc : List (Str × Str) × List Str × Cache) (field : Str) :
    List (Str × Str) × List Str × Cache :=
  match getk field message with
  | some v =>
      if v ≠ [] then
        let g := generateAnonymousValue digest v field salt acc.2.2
        (setk field g.1 acc.1, acc.2.1 ++ [field], g.2)
      else acc
  | none => acc

/-- One composite-key step (lines 200–212): presence alone triggers the
replacement, with the fixed category given by `cat`. -/
def anonCompositeKey (digest : Str → Str) (message : List (Str × Str)) (salt field cat : Str)
    (acc : List (Str × Str) × List Str × Cache) :
    List (Str × Str) × List Str × Cache :=
  match getk field message with
  | some v =>
      let g := generateAnonymousValue digest v cat salt acc.2.2
      (setk field g.1 acc.1, acc.2.1 ++ [field], g.2)
  | none => acc

/-- `anonymize_identifiers` (lines 167–218) on its success path, for a
message dict with string values (the general, dynamically typed entry
point including the `isinstance` error branch is `anonymizeIdentifiersDyn`
below). -/
def anonymizeIdentifiers (digest : Str → Str) (message : List (Str × Str)) (salt : Str)
    (cache : Cache) : AnonIdsResult × Cache :=
  let acc0 := idFields.foldl (anonIdField digest message salt) (message, [], cache)
  let acc1 := anonCompositeKey digest message salt (str "PK") (str "pk") acc0
  let acc2 := anonCompositeKey digest message salt (str "SK") (str "sk") acc1
  let acc3 := anonCompositeKey digest message salt (str "SKMessage") (str "sk_message") acc2
  (⟨str "success", acc3.1, acc3.2.1⟩, acc3.2.2)

/-- `clear_anonymization_cache` (lines 221–236): report the pre-clear
total entry count inside the `message` string and replace the cache with
an empty dict.  The returned dict has exactly the keys `status` and
`message`, modelled as an association list. -/
def clearAnonymizationCache (cache : Cache) : List (Str × Str) × Cache :=
  let cacheSize := (cache.map (fun p => p.2.length)).sum
  ([(str "status", str "success"),
    (str "message",
      str "Cleared " ++ (Nat.repr cacheSize).toList ++ str " cached anonymization mappings")],
   [])

/-! ## Association-list and generator lemmas -/

theorem getk_setk_self (k : Str) (v : α) (l : List (Str × α)) :
    getk k (setk k v l) = some v := by
  induction l with
  | nil => simp [setk, getk]
  | cons p rest ih =>
    by_cases h : p.1 = k
    · simp [setk, h, getk]
    · simp [setk, h, getk, ih]

theorem getk_setk_ne (k k' : Str) (v : α) (l : List (Str × α)) (h : k ≠ k') :
    getk k (setk k' v l) = getk k l := by
  have h' : k' ≠ k := Ne.symm h
  induction l with
  | nil => simp [setk, getk, h']
  | cons p rest ih =>
    obtain ⟨a, b⟩ := p
    by_cases h1 : a = k'
    · subst h1
      simp [setk, getk, h']
    · by_cases h2 : a = k <;> simp [setk, getk, h1, h2, ih, h]

theorem cacheKey_inj_left {c1 c2 v : Str} (h : cacheKey c1 v = cacheKey c2 v) : c1 = c2 :=
  (List.append_inj' h rfl).1

theorem generateAnonymousValue_hit {digest : Str → Str} {original piiType salt : Str}
    {cache : Cache} {p : Str}
    (h : getk (cacheKey piiType original) (bucketOf salt cache) = some p) :
    generateAnonymousValue digest original piiType salt cache = (p, cache) := by
  simp [generateAnonymousValue, h]

theorem generateAnonymousValue_miss {digest : Str → Str} {original piiType salt : Str}
    {cache : Cache}
    (h : getk (cacheKey piiType original) (bucketOf salt cache) = none) :
    generateAnonymousValue digest original piiType salt cache =
      (freshAnonymousValue digest original piiType salt,
       setk salt (setk (cacheKey piiType original)
         (freshAnonymousValue digest original piiType salt) (bucketOf salt cache)) cache) := by
  simp [generateAnonymousValue, h]

/-- After a call, the generator's own key is bound to the returned value. -/
theorem generateAnonymousValue_establishes (digest : Str → Str)
    (original piiType salt : Str) (cache : Cache) :
    getk (cacheKey piiType original)
        (bucketOf salt ((generateAnonymousValue digest original piiType salt cache).2)) =
      some ((generateAnonymousValue digest original piiType salt cache).1) := by
  cases h : getk (cacheKey piiType original) (bucketOf salt cache) with
  | some p => rw [generateAnonymousValue_hit h]; exact h
  | none =>
    rw [generateAnonymousValue_miss h]
    simp only [bucketOf, getk_setk_self, Option.getD_some]

/-- A call to the generator never removes or overwrites an existing cache
entry. -/
theorem generateAnonymousValue_preserves (digest : Str → Str)
    (original piiType salt : Str) (cache : Cache) (salt' key : Str) (p : Str)
    (h : getk key (bucketOf salt' cache) = some p) :
    getk key (bucketOf salt' ((generateAnonymousValue digest original piiType salt cache).2)) =
      some p := by
  cases hm : getk (cacheKey piiType original) (bucketOf salt cache) with
  | some q => rw [generateAnonymousValue_hit hm]; exact h
  | none =>
    rw [generateAnonymousValue_miss hm]
    by_cases hs : salt' = salt
    · subst hs
      have hk : key ≠ cacheKey piiType original := by
        intro he; rw [he] at h; rw [h] at hm; exact Option.noConfusion hm
      show getk key ((getk salt' (setk salt' _ cache)).getD []) = some p
      rw [getk_setk_self, Option.getD_some, getk_setk_ne _ _ _ _ hk]
      exact h
    · show getk key ((getk salt' (setk salt _ cache)).getD []) = some p
      rw [getk_setk_ne _ _ _ _ hs]
      exact h

/-- A generator call whose composite key is already bound returns the
bound value. -/
theorem generateAnonymousValue_of_bound {digest : Str → Str} {original piiType salt : Str}
    {cache : Cache} {p : Str}
    (h : getk (cacheKey piiType original) (bucketOf salt cache) = some p) :
    (generateAnonymousValue digest original piiType salt cache).1 = p := by
  rw [generateAnonymousValue_hit h]

/-- Concrete stand-in digest used in counterexamples and witnesses; the
statements it appears in hold for any digest returning an 8-character
string, in particular for the real truncated SHA-256. -/
def digest0 : Str → Str := fun _ => str "00000000"

/-! ## C4 — category isolation -/

/-- C4 (counterexample): the claim "two different category strings produce
two different placeholder strings" is false: the categories `"a"` and
`"A"` are different strings but, the category being uppercased into the
placeholder and the digest not depending on it, both calls yield the
identical placeholder `[A_00000000]`. -/
theorem category_case_fold_collision :
    (generateAnonymousValue digest0 (str "x") (str "A") []
        ((generateAnonymousValue digest0 (str "x") (str "a") [] []).2)).1 =
      (generateAnonymousValue digest0 (str "x") (str "a") [] []).1 ∧
    str "A" ≠ str "a" := by
  constructor
  · decide
  · decide

/-- C4 (amended): for a fixed value and salt, two categories that differ
after uppercasing produce different placeholders, provided neither
composite key is already bound in the cache (a colliding pre-existing
entry, cf. the C9 theorem, can return an arbitrary cached string). -/
theorem category_isolation_of_upper_ne (digest : Str → Str) (v c1 c2 salt : Str)
    (cache : Cache) (hne : pyUpper c1 ≠ pyUpper c2)
    (h1 : getk (cacheKey c1 v) (bucketOf salt cache) = none)
    (h2 : getk (cacheKey c2 v) (bucketOf salt cache) = none) :
    (generateAnonymousValue digest v c2 salt
        ((generateAnonymousValue digest v c1 salt cache).2)).1 ≠
      (generateAnonymousValue digest v c1 salt cache).1 := by
  have hc : c1 ≠ c2 := fun h => hne (by rw [h])
  have hkey : cacheKey c2 v ≠ cacheKey c1 v := fun h => hc (cacheKey_inj_left h).symm
  rw [generateAnonymousValue_miss h1]
  have hlook : getk (cacheKey c2 v)
      (bucketOf salt (setk salt (setk (cacheKey c1 v)
        (freshAnonymousValue digest v c1 salt) (bucketOf salt cache)) cache)) = none := by
    show getk (cacheKey c2 v) ((getk salt (setk salt _ cache)).getD []) = none
    rw [getk_setk_self, Option.getD_some, getk_setk_ne _ _ _ _ hkey]
    exact h2
  rw [generateAnonymousValue_miss hlook]
  intro h
  apply hne
  have h2' : pyUpper c2 ++ '_' :: (digest (salt ++ v) ++ [']']) =
      pyUpper c1 ++ '_' :: (digest (salt ++ v) ++ [']']) := by
    have := congrArg List.tail h
    simpa [freshAnonymousValue] using this
  exact ((List.append_inj' h2' rfl).1).symm

/-- C4 (witness). -/
theorem category_isolation_of_upper_ne_witness :
    (pyUpper (str "email") ≠ pyUpper (str "phone") ∧
      getk (cacheKey (str "email") (str "x")) (bucketOf [] []) = none ∧
      getk (cacheKey (str "phone") (str "x")) (bucketOf [] []) = none) ∧
    (generateAnonymousValue digest0 (str "x") (str "phone") []
        ((generateAnonymousValue digest0 (str "x") (str "email") [] []).2)).1 ≠
      (generateAnonymousValue digest0 (str "x") (str "email") [] []).1 :=
  ⟨⟨by decide, by decide, by decide⟩,
    category_isolation_of_upper_ne digest0 (str "x") (str "email") (str "phone") [] []
      (by decide) (by decide) (by decide)⟩

/-! ## C5 — determinism across the cache lifecycle -/

/-- C5 (counterexample): the claim fails on a cache poisoned through the
colliding composite key (see C9): generating for value `"b:c"`, category
`"a"` binds the key `a:b:c`; a pre-clear call for value `"c"`, category
`"a:b"` hits that entry and returns `[A_00000000]`, while the post-clear
call recomputes and returns `[A:B_00000000]`. -/
theorem clear_changes_output_on_poisoned_cache :
    (generateAnonymousValue digest0 (str "c") (str "a:b") []
        ((generateAnonymousValue digest0 (str "b:c") (str "a") [] []).2)).1 ≠
      (generateAnonymousValue digest0 (str "c") (str "a:b") []
        ((clearAnonymizationCache
          ((generateAnonymousValue digest0 (str "c") (str "a:b") []
            ((generateAnonymousValue digest0 (str "b:c") (str "a") [] []).2)).2)).2)).1 := by
  decide

/-- C5 (amended): repeated generator calls for the same
`(value, category, salt)` return the identical placeholder; and provided
the composite key `category:value` is unbound in the current cache or
bound to the freshly computed placeholder (i.e. no earlier call with a
colliding key poisoned it), a generate call made after `clear_cache`
returns the same string as one made before it. -/
theorem generate_deterministic_and_clear_stable (digest : Str → Str)
    (v c salt : Str) (cache : Cache)
    (h : getk (cacheKey c v) (bucketOf salt cache) = none ∨
      getk (cacheKey c v) (bucketOf salt cache) =
        some (freshAnonymousValue digest v c salt)) :
    (generateAnonymousValue digest v c salt
        ((generateAnonymousValue digest v c salt cache).2)).1 =
      (generateAnonymousValue digest v c salt cache).1 ∧
    (generateAnonymousValue digest v c salt
        ((clearAnonymizationCache cache).2)).1 =
      (generateAnonymousValue digest v c salt cache).1 := by
  constructor
  · exact generateAnonymousValue_of_bound
      (generateAnonymousValue_establishes digest v c salt cache)
  · have hpost : (generateAnonymousValue digest v c salt
        ((clearAnonymizationCache cache).2)).1 = freshAnonymousValue digest v c salt := by
      rfl
    rw [hpost]
    rcases h with h | h
    · rw [generateAnonymousValue_miss h]
    · rw [generateAnonymousValue_of_bound h]

/-- C5 (witness). -/
theorem generate_deterministic_and_clear_stable_witness :
    (getk (cacheKey (str "person_name") (str "john"))
        (bucketOf (str "s") []) = none ∨
      getk (cacheKey (str "person_name") (str "john")) (bucketOf (str "s") []) =
        some (freshAnonymousValue digest0 (str "john") (str "person_name") (str "s"))) ∧
    ((generateAnonymousValue digest0 (str "john") (str "person_name") (str "s")
        ((generateAnonymousValue digest0 (str "john") (str "person_name") (str "s") []).2)).1 =
      (generateAnonymousValue digest0 (str "john") (str "person_name") (str "s") []).1 ∧
    (generateAnonymousValue digest0 (str "john") (str "person_name") (str "s")
        ((clearAnonymizationCache []).2)).1 =
      (generateAnonymousValue digest0 (str "john") (str "person_name") (str "s") []).1) :=
  ⟨Or.inl (by decide),
    generate_deterministic_and_clear_stable digest0 (str "john") (str "person_name")
      (str "s") [] (Or.inl (by decide))⟩

/-! ## C9 — composite cache key collisions -/

/-- C9 (confirmed): the per-salt cache key is the bare concatenation
`category ++ ":" ++ value`, so whenever two (category, value) pairs have
equal concatenations, the second generate call returns exactly the
placeholder cached by the first; and a first call on an empty cache
computes the placeholder embedding the first pair's uppercased category. -/
theorem cache_key_collision_returns_first_placeholder (digest : Str → Str)
    (v1 c1 v2 c2 salt : Str) (cache : Cache)
    (h : cacheKey c2 v2 = cacheKey c1 v1) :
    (generateAnonymousValue digest v2 c2 salt
        ((generateAnonymousValue digest v1 c1 salt cache).2)).1 =
      (generateAnonymousValue digest v1 c1 salt cache).1 ∧
    (generateAnonymousValue digest v1 c1 salt []).1 =
      '[' :: (pyUpper c1 ++ '_' :: (digest (salt ++ v1) ++ [']'])) := by
  constructor
  · exact generateAnonymousValue_of_bound
      (h ▸ generateAnonymousValue_establishes digest v1 c1 salt cache)
  · rfl

/-- C9 (witness): category `"a"` with value `"b:c"` collides with category
`"a:b"` with value `"c"`. -/
theorem cache_key_collision_returns_first_placeholder_witness :
    (cacheKey (str "a:b") (str "c") = cacheKey (str "a") (str "b:c")) ∧
    ((generateAnonymousValue digest0 (str "c") (str "a:b") []
        ((generateAnonymousValue digest0 (str "b:c") (str "a") [] []).2)).1 =
      (generateAnonymousValue digest0 (str "b:c") (str "a") [] []).1 ∧
    (generateAnonymousValue digest0 (str "b:c") (str "a") [] []).1 =
      '[' :: (pyUpper (str "a") ++ '_' :: (digest0 ([] ++ str "b:c") ++ [']']))) :=
  ⟨by decide,
    cache_key_collision_returns_first_placeholder digest0 (str "b:c") (str "a")
      (str "c") (str "a:b") [] [] (by decide)⟩

/-! ## C3 — cache lifecycle control -/

/-- C3 (counterexample): the claim says the result of `clear_cache`
contains a `cleared_count` integer; in fact the returned dict has only
the keys `status` and `message`, the count being embedded in the message
string — here after one cached entry. -/
theorem clear_cache_has_no_cleared_count_field :
    getk (str "cleared_count")
        (clearAnonymizationCache
          ((generateAnonymousValue digest0 (str "x") (str "t") [] []).2)).1 = none ∧
    getk (str "message")
        (clearAnonymizationCache
          ((generateAnonymousValue digest0 (str "x") (str "t") [] []).2)).1 =
      some (str "Cleared 1 cached anonymization mappings") := by
  constructor
  · decide
  · decide

/-- C3 (amended): `clear_anonymization_cache` returns a dict with exactly
a `status` and a `message` key (no `cleared_count` field), the message
embedding the total number of cached entries across all salts at the
moment of the call; afterwards the cache is empty, and a subsequent clear
with no intervening generate call reports 0. -/
theorem clear_cache_message_and_reset (cache : Cache) :
    (clearAnonymizationCache cache).2 = [] ∧
    getk (str "status") (clearAnonymizationCache cache).1 = some (str "success") ∧
    getk (str "message") (clearAnonymizationCache cache).1 =
      some (str "Cleared " ++
        (Nat.repr ((cache.map (fun p => p.2.length)).sum)).toList ++
        str " cached anonymization mappings") ∧
    getk (str "cleared_count") (clearAnonymizationCache cache).1 = none ∧
    getk (str "message")
        ((clearAnonymizationCache ((clearAnonymizationCache cache).2)).1) =
      some (str "Cleared 0 cached anonymization mappings") := by
  refine ⟨rfl, rfl, rfl, rfl, ?_⟩
  show getk (str "message") ((clearAnonymizationCache ([] : Cache)).1) =
    some (str "Cleared 0 cached anonymization mappings")
  decide

/-! ## C10 — cache growth invariant -/

theorem rsvLoop_preserves (digest : Str → Str) (salt : Str) (items : List SpanItem)
    (text : Str) (reps : List Replacement) (cache : Cache) (salt' key p : Str)
    (h : getk key (bucketOf salt' cache) = some p) :
    getk key (bucketOf salt' ((rsvLoop digest salt items text reps cache).2.2)) = some p := by
  induction items generalizing text reps cache with
  | nil => exact h
  | cons item rest ih =>
    by_cases hc : item.value ≠ [] ∧ item.value <:+: text
    · simp only [rsvLoop, if_pos hc]
      exact ih _ _ _ (generateAnonymousValue_preserves _ _ _ _ _ _ _ _ h)
    · simp only [rsvLoop, if_neg hc]
      exact ih _ _ _ h

theorem appMatchLoop_preserves (digest : Str → Str) (salt piiType : Str)
    (mats : List Str) (text : Str) (detections : List Str) (cache : Cache)
    (salt' key p : Str) (h : getk key (bucketOf salt' cache) = some p) :
    getk key (bucketOf salt'
      ((appMatchLoop digest salt piiType mats text detections cache).2.2)) = some p := by
  induction mats generalizing text detections cache with
  | nil => exact h
  | cons m ms ih =>
    exact ih _ _ _ (generateAnonymousValue_preserves _ _ _ _ _ _ _ _ h)

theorem appPatternLoop_preserves (digest : Str → Str) (salt : Str)
    (patterns : List (Str × (Str → List Str))) (text : Str) (detections : List Str)
    (cache : Cache) (salt' key p : Str) (h : getk key (bucketOf salt' cache) = some p) :
    getk key (bucketOf salt'
      ((appPatternLoop digest salt patterns text detections cache).2.2)) = some p := by
  induction patterns generalizing text detections cache with
  | nil => exact h
  | cons pat rest ih =>
    exact ih _ _ _ (appMatchLoop_preserves _ _ _ _ _ _ _ _ _ _ h)

theorem anonIdField_preserves (digest : Str → Str) (message : List (Str × Str))
    (salt : Str) (acc : List (Str × Str) × List Str × Cache) (field : Str)
    (salt' key p : Str) (h : getk key (bucketOf salt' acc.2.2) = some p) :
    getk key (bucketOf salt' ((anonIdField digest message salt acc field).2.2)) = some p := by
  unfold anonIdField
  cases getk field message with
  | none => exact h
  | some v =>
    by_cases hv : v ≠ []
    · simp only [if_pos hv]
      exact generateAnonymousValue_preserves _ _ _ _ _ _ _ _ h
    · simp only [if_neg hv]
      exact h

theorem anonIdFoldl_preserves (digest : Str → Str) (message : List (Str × Str))
    (salt : Str) (fields : List Str) (acc : List (Str × Str) × List Str × Cache)
    (salt' key p : Str) (h : getk key (bucketOf salt' acc.2.2) = some p) :
    getk key (bucketOf salt'
      ((fields.foldl (anonIdField digest message salt) acc).2.2)) = some p := by
  induction fields generalizing acc with
  | nil => exact h
  | cons f rest ih =>
    exact ih _ (anonIdField_preserves _ _ _ _ _ _ _ _ h)

theorem anonCompositeKey_preserves (digest : Str → Str) (message : List (Str × Str))
    (salt field cat : Str) (acc : List (Str × Str) × List Str × Cache)
    (salt' key p : Str) (h : getk key (bucketOf salt' acc.2.2) = some p) :
    getk key (bucketOf salt'
      ((anonCompositeKey digest message salt field cat acc).2.2)) = some p := by
  unfold anonCompositeKey
  cases getk field message with
  | none => exact h
  | some v => exact generateAnonymousValue_preserves _ _ _ _ _ _ _ _ h

/-- C10 (confirmed): once a `(salt, category:value)` key holds a
placeholder, no operation but the explicit clear removes or overwrites
it: the generator, span substitution, structured-PII detection and
identifier anonymization all leave the entry intact, and a generator call
under that salt whose composite key matches returns exactly the stored
string. -/
theorem cache_entries_persist_across_operations (digest : Str → Str)
    (salt' key p : Str) (cache : Cache)
    (original piiType salt text : Str) (values : List SpanItem)
    (patterns : List (Str × (Str → List Str))) (message : List (Str × Str))
    (h : getk key (bucketOf salt' cache) = some p)
    (hk : cacheKey piiType original = key) :
    getk key (bucketOf salt'
        ((generateAnonymousValue digest original piiType salt cache).2)) = some p ∧
    (generateAnonymousValue digest original piiType salt' cache).1 = p ∧
    getk key (bucketOf salt'
        ((replaceSensitiveValues digest text values salt cache).2)) = some p ∧
    getk key (bucketOf salt'
        ((anonymizePiiPatterns digest patterns text salt cache).2)) = some p ∧
    getk key (bucketOf salt'
        ((anonymizeIdentifiers digest message salt cache).2)) = some p := by
  refine ⟨generateAnonymousValue_preserves _ _ _ _ _ _ _ _ h,
    generateAnonymousValue_of_bound (hk ▸ h), ?_, ?_, ?_⟩
  · unfold replaceSensitiveValues
    by_cases ht : text = []
    · simp only [if_pos ht]; exact h
    · by_cases hv : values = []
      · simp only [if_neg ht, if_pos hv]; exact h
      · simp only [if_neg ht, if_neg hv]
        exact rsvLoop_preserves _ _ _ _ _ _ _ _ _ h
  · unfold anonymizePiiPatterns
    by_cases ht : text = []
    · simp only [if_pos ht]; exact h
    · simp only [if_neg ht]
      exact appPatternLoop_preserves _ _ _ _ _ _ _ _ _ h
  · unfold anonymizeIdentifiers
    exact anonCompositeKey_preserves _ _ _ _ _ _ _ _ _
      (anonCompositeKey_preserves _ _ _ _ _ _ _ _ _
        (anonCompositeKey_preserves _ _ _ _ _ _ _ _ _
          (anonIdFoldl_preserves _ _ _ _ _ _ _ _ h)))

/-- C10 (witness). -/
theorem cache_entries_persist_across_operations_witness :
    (getk (cacheKey (str "t") (str "x"))
        (bucketOf [] ((generateAnonymousValue digest0 (str "x") (str "t") [] []).2)) =
        some (str "[T_00000000]") ∧
      cacheKey (str "t") (str "x") = cacheKey (str "t") (str "x")) ∧
    (getk (cacheKey (str "t") (str "x"))
        (bucketOf [] ((generateAnonymousValue digest0 (str "y") (str "u") (str "s")
          ((generateAnonymousValue digest0 (str "x") (str "t") [] []).2)).2)) =
        some (str "[T_00000000]") ∧
      (generateAnonymousValue digest0 (str "x") (str "t") []
          ((generateAnonymousValue digest0 (str "x") (str "t") [] []).2)).1 =
        str "[T_00000000]" ∧
      getk (cacheKey (str "t") (str "x"))
        (bucketOf [] ((replaceSensitiveValues digest0 (str "hi") [⟨str "y", str "u"⟩]
          (str "s") ((generateAnonymousValue digest0 (str "x") (str "t") [] []).2)).2)) =
        some (str "[T_00000000]") ∧
      getk (cacheKey (str "t") (str "x"))
        (bucketOf [] ((anonymizePiiPatterns digest0 [(str "ssn", fun _ => [str "1"])]
          (str "hi") (str "s")
          ((generateAnonymousValue digest0 (str "x") (str "t") [] []).2)).2)) =
        some (str "[T_00000000]") ∧
      getk (cacheKey (str "t") (str "x"))
        (bucketOf [] ((anonymizeIdentifiers digest0 [(str "PK", str "k")] (str "s")
          ((generateAnonymousValue digest0 (str "x") (str "t") [] []).2)).2)) =
        some (str "[T_00000000]")) :=
  ⟨⟨by decide, rfl⟩,
    cache_entries_persist_across_operations digest0 [] (cacheKey (str "t") (str "x"))
      (str "[T_00000000]") ((generateAnonymousValue digest0 (str "x") (str "t") [] []).2)
      (str "x") (str "t") (str "s") (str "hi") [⟨str "y", str "u"⟩]
      [(str "ssn", fun _ => [str "1"])] [(str "PK", str "k")] (by decide) rfl⟩

/-! ## C7 / C8 — identifier-field anonymizer -/

theorem anonIdField_msg_ne (digest : Str → Str) (message : List (Str × Str)) (salt : Str)
    (acc : List (Str × Str) × List Str × Cache) (field k : Str) (hk : k ≠ field) :
    getk k (anonIdField digest message salt acc field).1 = getk k acc.1 := by
  unfold anonIdField
  cases getk field message with
  | none => rfl
  | some v =>
    by_cases hv : v ≠ []
    · simp only [if_pos hv]
      exact getk_setk_ne _ _ _ _ hk
    · simp only [if_neg hv]

theorem anonIdFoldl_msg_not_mem (digest : Str → Str) (message : List (Str × Str))
    (salt : Str) (fields : List Str) (acc : List (Str × Str) × List Str × Cache)
    (k : Str) (hk : k ∉ fields) :
    getk k ((fields.foldl (anonIdField digest message salt) acc).1) = getk k acc.1 := by
  induction fields generalizing acc with
  | nil => rfl
  | cons f rest ih =>
    have hkf : k ≠ f := fun h => hk (h ▸ List.mem_cons_self f rest)
    have hkr : k ∉ rest := fun h => hk (List.mem_cons_of_mem f h)
    rw [List.foldl_cons, ih _ hkr, anonIdField_msg_ne _ _ _ _ _ _ hkf]

theorem anonIdFoldl_msg_skip (digest : Str → Str) (message : List (Str × Str))
    (salt : Str) (fields : List Str) (acc : List (Str × Str) × List Str × Cache)
    (k : Str) (hk : (getk k message).getD [] = []) :
    getk k ((fields.foldl (anonIdField digest message salt) acc).1) = getk k acc.1 := by
  induction fields generalizing acc with
  | nil => rfl
  | cons f rest ih =>
    rw [List.foldl_cons, ih]
    by_cases hkf : k = f
    · subst hkf
      unfold anonIdField
      cases hm : getk k message with
      | none => rfl
      | some v =>
        have hv : v = [] := by rw [hm] at hk; exact hk
        simp [hv]
    · exact anonIdField_msg_ne _ _ _ _ _ _ hkf

theorem anonCompositeKey_msg_ne (digest : Str → Str) (message : List (Str × Str))
    (salt field cat : Str) (acc : List (Str × Str) × List Str × Cache) (k : Str)
    (hk : k ≠ field) :
    getk k (anonCompositeKey digest message salt field cat acc).1 = getk k acc.1 := by
  unfold anonCompositeKey
  cases getk field message with
  | none => rfl
  | some v => exact getk_setk_ne _ _ _ _ hk

theorem anonIdField_performed (digest : Str → Str) (message : List (Str × Str))
    (salt : Str) (acc : List (Str × Str) × List Str × Cache) (field : Str) :
    (anonIdField digest message salt acc field).2.1 =
      acc.2.1 ++ (if (getk field message).getD [] ≠ [] then [field] else []) := by
  unfold anonIdField
  cases getk field message with
  | none => simp
  | some v =>
    by_cases hv : v ≠ []
    · simp [if_pos hv, hv]
    · simp only [ne_eq, not_not] at hv
      simp [hv]

theorem anonIdFoldl_performed (digest : Str → Str) (message : List (Str × Str))
    (salt : Str) (fields : List Str) (acc : List (Str × Str) × List Str × Cache) :
    ((fields.foldl (anonIdField digest message salt) acc).2.1) =
      acc.2.1 ++ fields.filter (fun g => decide ((getk g message).getD [] ≠ [])) := by
  induction fields generalizing acc with
  | nil => simp
  | cons f rest ih =>
    rw [List.foldl_cons, ih, anonIdField_performed]
    by_cases hp : (getk f message).getD [] ≠ []
    · simp [hp]
    · simp [hp]

theorem anonCompositeKey_performed (digest : Str → Str) (message : List (Str × Str))
    (salt field cat : Str) (acc : List (Str × Str) × List Str × Cache) :
    (anonCompositeKey digest message salt field cat acc).2.1 =
      acc.2.1 ++ (if (getk field message).isSome then [field] else []) := by
  unfold anonCompositeKey
  cases getk field message with
  | none => simp
  | some v => simp

theorem anonCompositeKey_establishes (digest : Str → Str) (message : List (Str × Str))
    (salt field cat : Str) (acc : List (Str × Str) × List Str × Cache) (v : Str)
    (h : getk field message = some v) :
    getk (cacheKey cat v)
        (bucketOf salt (anonCompositeKey digest message salt field cat acc).2.2) =
      some ((generateAnonymousValue digest v cat salt acc.2.2).1) := by
  unfold anonCompositeKey
  rw [h]
  exact generateAnonymousValue_establishes _ _ _ _ _

/-- C8 (confirmed): frame property of `anonymize_identifiers` — every key
outside the fixed set of five id fields and three composite key fields
maps in the output message to exactly what it maps to in the input
(absent keys stay absent, `content` and any other field is untouched). -/
theorem anonymize_identifiers_frame (digest : Str → Str) (message : List (Str × Str))
    (salt : Str) (cache : Cache) (k : Str)
    (hk : k ∉ idFields ++ [str "PK", str "SK", str "SKMessage"]) :
    getk k ((anonymizeIdentifiers digest message salt cache).1.anonymized_message) =
      getk k message := by
  have hid : k ∉ idFields := fun h => hk (List.mem_append_left _ h)
  have hPK : k ≠ str "PK" := by
    intro h; exact hk (List.mem_append_right _ (by rw [h]; simp))
  have hSK : k ≠ str "SK" := by
    intro h; exact hk (List.mem_append_right _ (by rw [h]; simp))
  have hSKM : k ≠ str "SKMessage" := by
    intro h; exact hk (List.mem_append_right _ (by rw [h]; simp))
  show getk k (anonCompositeKey digest message salt (str "SKMessage") (str "sk_message")
      (anonCompositeKey digest message salt (str "SK") (str "sk")
        (anonCompositeKey digest message salt (str "PK") (str "pk")
          (idFields.foldl (anonIdField digest message salt) (message, [], cache))))).1 =
    getk k message
  rw [anonCompositeKey_msg_ne _ _ _ _ _ _ _ hSKM,
    anonCompositeKey_msg_ne _ _ _ _ _ _ _ hSK,
    anonCompositeKey_msg_ne _ _ _ _ _ _ _ hPK,
    anonIdFoldl_msg_not_mem _ _ _ _ _ _ hid]

/-- C8 (witness): the `content` field passes through unmodified. -/
theorem anonymize_identifiers_frame_witness :
    (str "content" ∉ idFields ++ [str "PK", str "SK", str "SKMessage"]) ∧
    getk (str "content")
        ((anonymizeIdentifiers digest0
          [(str "PK", str "a"), (str "content", str "hi")] (str "s") []).1.anonymized_message) =
      getk (str "content") [(str "PK", str "a"), (str "content", str "hi")] :=
  ⟨by decide,
    anonymize_identifiers_frame digest0 [(str "PK", str "a"), (str "content", str "hi")]
      (str "s") [] (str "content") (by decide)⟩

/-- C7 (confirmed): an id field (`message_id`, `thread_id`, `org_id`,
`user_id`, `tenant_id`) is anonymized exactly when present and truthy —
the performed list is the filter of the id fields by present-and-nonempty,
a present-but-falsy id field is left untouched — while each composite key
field (`PK`, `SK`, `SKMessage`) is anonymized whenever present, regardless
of truthiness, under the categories `pk`, `sk`, `sk_message` (witnessed by
the composite cache key the call leaves bound). -/
theorem anonymize_identifiers_field_scoping (digest : Str → Str)
    (message : List (Str × Str)) (salt : Str) (cache : Cache) (f v : Str)
    (hf : f ∈ idFields) :
    ((anonymizeIdentifiers digest message salt cache).1.anonymizations_performed =
      idFields.filter (fun g => decide ((getk g message).getD [] ≠ [])) ++
        (if (getk (str "PK") message).isSome then [str "PK"] else []) ++
        (if (getk (str "SK") message).isSome then [str "SK"] else []) ++
        (if (getk (str "SKMessage") message).isSome then [str "SKMessage"] else [])) ∧
    ((getk f message).getD [] = [] →
      getk f ((anonymizeIdentifiers digest message salt cache).1.anonymized_message) =
        getk f message) ∧
    (getk (str "PK") message = some v →
      getk (cacheKey (str "pk") v)
        (bucketOf salt ((anonymizeIdentifiers digest message salt cache).2)) ≠ none) ∧
    (getk (str "SK") message = some v →
      getk (cacheKey (str "sk") v)
        (bucketOf salt ((anonymizeIdentifiers digest message salt cache).2)) ≠ none) ∧
    (getk (str "SKMessage") message = some v →
      getk (cacheKey (str "sk_message") v)
        (bucketOf salt ((anonymizeIdentifiers digest message salt cache).2)) ≠ none) := by
  have hfPK : f ≠ str "PK" := by
    rcases (by simpa [idFields] using hf : f = str "message_id" ∨ f = str "thread_id" ∨
      f = str "org_id" ∨ f = str "user_id" ∨ f = str "tenant_id") with
      rfl | rfl | rfl | rfl | rfl <;> decide
  have hfSK : f ≠ str "SK" := by
    rcases (by simpa [idFields] using hf : f = str "message_id" ∨ f = str "thread_id" ∨
      f = str "org_id" ∨ f = str "user_id" ∨ f = str "tenant_id") with
      rfl | rfl | rfl | rfl | rfl <;> decide
  have hfSKM : f ≠ str "SKMessage" := by
    rcases (by simpa [idFields] using hf : f = str "message_id" ∨ f = str "thread_id" ∨
      f = str "org_id" ∨ f = str "user_id" ∨ f = str "tenant_id") with
      rfl | rfl | rfl | rfl | rfl <;> decide
  refine ⟨?_, ?_, ?_, ?_, ?_⟩
  · show (anonCompositeKey digest message salt (str "SKMessage") (str "sk_message")
        (anonCompositeKey digest message salt (str "SK") (str "sk")
          (anonCompositeKey digest message salt (str "PK") (str "pk")
            (idFields.foldl (anonIdField digest message salt)
              (message, [], cache))))).2.1 = _
    rw [anonCompositeKey_performed, anonCompositeKey_performed, anonCompositeKey_performed,
      anonIdFoldl_performed]
    simp
  · intro hfalsy
    show getk f (anonCompositeKey digest message salt (str "SKMessage") (str "sk_message")
        (anonCompositeKey digest message salt (str "SK") (str "sk")
          (anonCompositeKey digest message salt (str "PK") (str "pk")
            (idFields.foldl (anonIdField digest message salt)
              (message, [], cache))))).1 = getk f message
    rw [anonCompositeKey_msg_ne _ _ _ _ _ _ _ hfSKM,
      anonCompositeKey_msg_ne _ _ _ _ _ _ _ hfSK,
      anonCompositeKey_msg_ne _ _ _ _ _ _ _ hfPK,
      anonIdFoldl_msg_skip _ _ _ _ _ _ hfalsy]
  · intro hv
    show getk (cacheKey (str "pk") v)
        (bucketOf salt (anonCompositeKey digest message salt (str "SKMessage")
          (str "sk_message") (anonCompositeKey digest message salt (str "SK") (str "sk")
            (anonCompositeKey digest message salt (str "PK") (str "pk")
              (idFields.foldl (anonIdField digest message salt)
                (message, [], cache))))).2.2) ≠ none
    have h1 := anonCompositeKey_establishes digest message salt (str "PK") (str "pk")
      (idFields.foldl (anonIdField digest message salt) (message, [], cache)) v hv
    have h2 := anonCompositeKey_preserves digest message salt (str "SK") (str "sk") _
      salt (cacheKey (str "pk") v) _ h1
    have h3 := anonCompositeKey_preserves digest message salt (str "SKMessage")
      (str "sk_message") _ salt (cacheKey (str "pk") v) _ h2
    rw [h3]
    exact Option.noConfusion
  · intro hv
    show getk (cacheKey (str "sk") v)
        (bucketOf salt (anonCompositeKey digest message salt (str "SKMessage")
          (str "sk_message") (anonCompositeKey digest message salt (str "SK") (str "sk")
            (anonCompositeKey digest message salt (str "PK") (str "pk")
              (idFields.foldl (anonIdField digest message salt)
                (message, [], cache))))).2.2) ≠ none
    have h2 := anonCompositeKey_establishes digest message salt (str "SK") (str "sk")
      (anonCompositeKey digest message salt (str "PK") (str "pk")
        (idFields.foldl (anonIdField digest message salt) (message, [], cache))) v hv
    have h3 := anonCompositeKey_preserves digest message salt (str "SKMessage")
      (str "sk_message") _ salt (cacheKey (str "sk") v) _ h2
    rw [h3]
    exact Option.noConfusion
  · intro hv
    show getk (cacheKey (str "sk_message") v)
        (bucketOf salt (anonCompositeKey digest message salt (str "SKMessage")
          (str "sk_message") (anonCompositeKey digest message salt (str "SK") (str "sk")
            (anonCompositeKey digest message salt (str "PK") (str "pk")
              (idFields.foldl (anonIdField digest message salt)
                (message, [], cache))))).2.2) ≠ none
    have h3 := anonCompositeKey_establishes digest message salt (str "SKMessage")
      (str "sk_message") (anonCompositeKey digest message salt (str "SK") (str "sk")
        (anonCompositeKey digest message salt (str "PK") (str "pk")
          (idFields.foldl (anonIdField digest message salt) (message, [], cache)))) v hv
    rw [h3]
    exact Option.noConfusion

/-- C7 (witness): `{PK: "a", user_id: "", content: "hi"}` — `user_id` is
present but falsy and stays untouched, `PK` is anonymized. -/
theorem anonymize_identifiers_field_scoping_witness :
    (str "user_id" ∈ idFields) ∧
    (((anonymizeIdentifiers digest0
        [(str "PK", str "a"), (str "user_id", str ""), (str "content", str "hi")]
        (str "s") []).1.anonymizations_performed =
      idFields.filter (fun g => decide ((getk g
          [(str "PK", str "a"), (str "user_id", str ""), (str "content", str "hi")]).getD []
            ≠ [])) ++
        (if (getk (str "PK")
            [(str "PK", str "a"), (str "user_id", str ""), (str "content", str "hi")]).isSome
          then [str "PK"] else []) ++
        (if (getk (str "SK")
            [(str "PK", str "a"), (str "user_id", str ""), (str "content", str "hi")]).isSome
          then [str "SK"] else []) ++
        (if (getk (str "SKMessage")
            [(str "PK", str "a"), (str "user_id", str ""), (str "content", str "hi")]).isSome
          then [str "SKMessage"] else [])) ∧
    ((getk (str "user_id")
        [(str "PK", str "a"), (str "user_id", str ""), (str "content", str "hi")]).getD [] = [] →
      getk (str "user_id") ((anonymizeIdentifiers digest0
          [(str "PK", str "a"), (str "user_id", str ""), (str "content", str "hi")]
          (str "s") []).1.anonymized_message) =
        getk (str "user_id")
          [(str "PK", str "a"), (str "user_id", str ""), (str "content", str "hi")]) ∧
    (getk (str "PK")
        [(str "PK", str "a"), (str "user_id", str ""), (str "content", str "hi")] =
          some (str "a") →
      getk (cacheKey (str "pk") (str "a"))
        (bucketOf (str "s") ((anonymizeIdentifiers digest0
          [(str "PK", str "a"), (str "user_id", str ""), (str "content", str "hi")]
          (str "s") []).2)) ≠ none) ∧
    (getk (str "SK")
        [(str "PK", str "a"), (str "user_id", str ""), (str "content", str "hi")] =
          some (str "a") →
      getk (cacheKey (str "sk") (str "a"))
        (bucketOf (str "s") ((anonymizeIdentifiers digest0
          [(str "PK", str "a"), (str "user_id", str ""), (str "content", str "hi")]
          (str "s") []).2)) ≠ none) ∧
    (getk (str "SKMessage")
        [(str "PK", str "a"), (str "user_id", str ""), (str "content", str "hi")] =
          some (str "a") →
      getk (cacheKey (str "sk_message") (str "a"))
        (bucketOf (str "s") ((anonymizeIdentifiers digest0
          [(str "PK", str "a"), (str "user_id", str ""), (str "content", str "hi")]
          (str "s") []).2)) ≠ none)) :=
  ⟨by decide,
    anonymize_identifiers_field_scoping digest0
      [(str "PK", str "a"), (str "user_id", str ""), (str "content", str "hi")]
      (str "s") [] (str "user_id") (str "a") (by decide)⟩

/-! ## C2 — span processing order and replacement count -/

theorem insertByLenDesc_perm (x : SpanItem) (l : List SpanItem) :
    (insertByLenDesc x l).Perm (x :: l) := by
  induction l with
  | nil => exact List.Perm.refl _
  | cons y ys ih =>
    by_cases h : y.value.length ≤ x.value.length
    · simp only [insertByLenDesc, if_pos h]
      exact List.Perm.refl _
    · simp only [insertByLenDesc, if_neg h]
      exact (ih.cons y).trans (List.Perm.swap x y ys)

theorem sortByLenDesc_perm (l : List SpanItem) : (sortByLenDesc l).Perm l := by
  induction l with
  | nil => exact List.Perm.refl _
  | cons a l ih =>
    exact (insertByLenDesc_perm a (sortByLenDesc l)).trans (ih.cons a)

theorem insertByLenDesc_pairwise (x : SpanItem) (l : List SpanItem)
    (h : List.Pairwise (fun a b => b.value.length ≤ a.value.length) l) :
    List.Pairwise (fun a b => b.value.length ≤ a.value.length) (insertByLenDesc x l) := by
  induction l with
  | nil => exact List.Pairwise.cons (by simp) List.Pairwise.nil
  | cons y ys ih =>
    cases h with
    | cons hy hys =>
      by_cases hle : y.value.length ≤ x.value.length
      · simp only [insertByLenDesc, if_pos hle]
        refine List.Pairwise.cons ?_ (List.Pairwise.cons hy hys)
        intro z hz
        rcases List.mem_cons.mp hz with rfl | hz
        · exact hle
        · exact le_trans (hy z hz) hle
      · simp only [insertByLenDesc, if_neg hle]
        refine List.Pairwise.cons ?_ (ih hys)
        intro z hz
        rcases List.mem_cons.mp ((insertByLenDesc_perm x ys).mem_iff.mp hz) with rfl | hz'
        · exact le_of_lt (lt_of_not_le hle)
        · exact hy z hz'

theorem sortByLenDesc_pairwise (l : List SpanItem) :
    List.Pairwise (fun a b => b.value.length ≤ a.value.length) (sortByLenDesc l) := by
  induction l with
  | nil => exact List.Pairwise.nil
  | cons a l ih => exact insertByLenDesc_pairwise a (sortByLenDesc l) ih

theorem filter_insertByLenDesc (x : SpanItem) (l : List SpanItem) (n : Nat) :
    (insertByLenDesc x l).filter (fun s => decide (s.value.length = n)) =
      if x.value.length = n then
        x :: l.filter (fun s => decide (s.value.length = n))
      else l.filter (fun s => decide (s.value.length = n)) := by
  induction l with
  | nil =>
    by_cases hx : x.value.length = n <;> simp [insertByLenDesc, hx]
  | cons y ys ih =>
    show (if y.value.length ≤ x.value.length then x :: y :: ys
        else y :: insertByLenDesc x ys).filter _ = _
    by_cases hle : y.value.length ≤ x.value.length
    · rw [if_pos hle]
      by_cases hx : x.value.length = n <;> by_cases hy : y.value.length = n <;>
        simp [List.filter_cons, hx, hy]
    · rw [if_neg hle]
      have hlt : x.value.length < y.value.length := lt_of_not_le hle
      by_cases hy : y.value.length = n
      · have hx : ¬ x.value.length = n := by omega
        rw [List.filter_cons, ih]
        simp [hy, hx]
      · by_cases hx : x.value.length = n <;>
          · rw [List.filter_cons, ih]
            simp [hy, hx]

/-- Stability: elements of any fixed value length appear in the sorted
list in exactly their original relative order. -/
theorem sortByLenDesc_stable (l : List SpanItem) (n : Nat) :
    (sortByLenDesc l).filter (fun s => decide (s.value.length = n)) =
      l.filter (fun s => decide (s.value.length = n)) := by
  induction l with
  | nil => rfl
  | cons a l ih =>
    show (insertByLenDesc a (sortByLenDesc l)).filter _ = _
    rw [filter_insertByLenDesc]
    by_cases ha : a.value.length = n <;> simp [ha, ih, List.filter_cons]

/-- Every recorded replacement entry stems from some processed span item,
keeping its value and type. -/
theorem rsvLoop_entry_provenance (digest : Str → Str) (salt : Str)
    (items : List SpanItem) (text : Str) (reps : List Replacement) (cache : Cache)
    (e : Replacement) (he : e ∈ (rsvLoop digest salt items text reps cache).2.1) :
    e ∈ reps ∨ ∃ item ∈ items, e.original = item.value ∧ e.type = item.type := by
  induction items generalizing text reps cache with
  | nil => exact Or.inl he
  | cons item rest ih =>
    by_cases hc : item.value ≠ [] ∧ item.value <:+: text
    · rw [rsvLoop, if_pos hc] at he
      rcases ih _ _ _ he with hmem | ⟨it, hit, hfields⟩
      · rcases List.mem_append.mp hmem with hmem | hmem
        · exact Or.inl hmem
        · have : e = ⟨item.value, item.type, _⟩ := List.mem_singleton.mp hmem
          exact Or.inr ⟨item, List.mem_cons_self _ _, by rw [this], by rw [this]⟩
      · exact Or.inr ⟨it, List.mem_cons_of_mem _ hit, hfields⟩
    · rw [rsvLoop, if_neg hc] at he
      rcases ih _ _ _ he with hmem | ⟨it, hit, hfields⟩
      · exact Or.inl hmem
      · exact Or.inr ⟨it, List.mem_cons_of_mem _ hit, hfields⟩

/-- C2 (counterexample): the claim says spans are deduplicated and at most
one entry is recorded per distinct value; in fact `replace_sensitive_values`
does not deduplicate, and a duplicated span whose value reappears inside
its own placeholder (value `"A"`, category `"a"`, placeholder
`[A_00000000]`) is replaced twice, recording two entries for the same
value and `items_replaced = 2`. -/
theorem replace_sensitive_values_duplicate_entries :
    ((replaceSensitiveValues digest0 (str "A")
        [⟨str "A", str "a"⟩, ⟨str "A", str "a"⟩] [] []).1.replacements.map
          (fun e => e.original) = [str "A", str "A"]) ∧
    (replaceSensitiveValues digest0 (str "A")
        [⟨str "A", str "a"⟩, ⟨str "A", str "a"⟩] [] []).1.items_replaced = some 2 := by
  constructor
  · decide
  · decide

/-- C2 (amended): spans are processed in the order given by a stable sort
by value length descending (a permutation of the input, sorted, ties in
original order) with no deduplication pass; one entry is recorded per
processed span whose (nonempty) value is found in the then-current text —
so a duplicated span value can be recorded twice when it reappears — each
entry keeping its span's value and type, and `items_replaced` equals the
number of recorded entries. -/
theorem replace_sensitive_values_order_and_count (digest : Str → Str)
    (text : Str) (values : List SpanItem) (salt : Str) (cache : Cache)
    (n : Nat) (e : Replacement) (ht : text ≠ []) (hv : values ≠ [])
    (he : e ∈ (replaceSensitiveValues digest text values salt cache).1.replacements) :
    ((replaceSensitiveValues digest text values salt cache).1.items_replaced =
      some (replaceSensitiveValues digest text values salt cache).1.replacements.length) ∧
    (sortByLenDesc values).Perm values ∧
    List.Pairwise (fun a b => b.value.length ≤ a.value.length) (sortByLenDesc values) ∧
    (sortByLenDesc values).filter (fun s => decide (s.value.length = n)) =
      values.filter (fun s => decide (s.value.length = n)) ∧
    (⟨e.original, e.type⟩ : SpanItem) ∈ values := by
  refine ⟨?_, sortByLenDesc_perm values, sortByLenDesc_pairwise values,
    sortByLenDesc_stable values n, ?_⟩
  · simp [replaceSensitiveValues, if_neg ht, if_neg hv]
  · have he' : e ∈ (rsvLoop digest salt (sortByLenDesc values) text [] cache).2.1 := by
      simpa [replaceSensitiveValues, if_neg ht, if_neg hv] using he
    rcases rsvLoop_entry_provenance digest salt _ text [] cache e he' with hmem | ⟨it, hit, h1, h2⟩
    · exact absurd hmem (List.not_mem_nil e)
    · have : (⟨e.original, e.type⟩ : SpanItem) = it := by
        cases it
        simp only at h1 h2
        rw [h1, h2]
      rw [this]
      exact (sortByLenDesc_perm values).mem_iff.mp hit

/-- C2 (witness). -/
theorem replace_sensitive_values_order_and_count_witness :
    (str "ab" ≠ ([] : Str) ∧ ([⟨str "a", str "t"⟩] : List SpanItem) ≠ [] ∧
      (⟨str "a", str "t", str "[T_00000000]"⟩ : Replacement) ∈
        (replaceSensitiveValues digest0 (str "ab") [⟨str "a", str "t"⟩]
          [] []).1.replacements) ∧
    (((replaceSensitiveValues digest0 (str "ab") [⟨str "a", str "t"⟩] [] []).1.items_replaced =
      some (replaceSensitiveValues digest0 (str "ab") [⟨str "a", str "t"⟩]
        [] []).1.replacements.length) ∧
    (sortByLenDesc [⟨str "a", str "t"⟩]).Perm [⟨str "a", str "t"⟩] ∧
    List.Pairwise (fun a b => b.value.length ≤ a.value.length)
      (sortByLenDesc [⟨str "a", str "t"⟩]) ∧
    (sortByLenDesc [⟨str "a", str "t"⟩]).filter (fun s => decide (s.value.length = 1)) =
      ([⟨str "a", str "t"⟩] : List SpanItem).filter (fun s => decide (s.value.length = 1)) ∧
    (⟨(⟨str "a", str "t", str "[T_00000000]"⟩ : Replacement).original,
        (⟨str "a", str "t", str "[T_00000000]"⟩ : Replacement).type⟩ : SpanItem) ∈
      ([⟨str "a", str "t"⟩] : List SpanItem)) :=
  ⟨⟨by decide, by decide, by decide⟩,
    replace_sensitive_values_order_and_count digest0 (str "ab") [⟨str "a", str "t"⟩]
      [] [] 1 ⟨str "a", str "t", str "[T_00000000]"⟩ (by decide) (by decide) (by decide)⟩

/-! ## C1 — no-leakage analysis of the span substitution -/

theorem infix_of_pfx {l₁ l₂ : Str} (h : l₁ <+: l₂) : l₁ <:+: l₂ := by
  rcases h with ⟨t, rfl⟩
  exact ⟨[], t, rfl⟩

theorem infix_of_sfx {l₁ l₂ : Str} (h : l₁ <:+ l₂) : l₁ <:+: l₂ := by
  rcases h with ⟨s, rfl⟩
  exact ⟨s, [], by simp⟩

theorem sfx_cons {l₁ l₂ : Str} (x : Char) (h : l₁ <:+ l₂) : l₁ <:+ x :: l₂ := by
  rcases h with ⟨s, rfl⟩
  exact ⟨x :: s, rfl⟩

theorem prefix_append_cases {w a b : Str} (h : w <+: a ++ b) :
    w <+: a ∨ ∃ w2, w = a ++ w2 ∧ w2 <+: b := by
  induction a generalizing w with
  | nil => exact Or.inr ⟨w, rfl, h⟩
  | cons x a' ih =>
    cases w with
    | nil => exact Or.inl (List.nil_prefix)
    | cons y w' =>
      rw [List.cons_append] at h
      rcases List.cons_prefix_cons.mp h with ⟨rfl, h'⟩
      rcases ih h' with h'' | ⟨w2, rfl, hw2⟩
      · exact Or.inl (List.cons_prefix_cons.mpr ⟨rfl, h''⟩)
      · exact Or.inr ⟨w2, by simp, hw2⟩

theorem infix_append_cases {v a b : Str} (h : v <:+: a ++ b) :
    v <:+: a ∨ v <:+: b ∨
      ∃ v1 v2, v = v1 ++ v2 ∧ v1 ≠ [] ∧ v2 ≠ [] ∧ v1 <:+ a ∧ v2 <+: b := by
  induction a generalizing v with
  | nil =>
    rw [List.nil_append] at h
    exact Or.inr (Or.inl h)
  | cons x a' ih =>
    rw [List.cons_append] at h
    rcases List.infix_cons_iff.mp h with hpre | hinf
    · cases v with
      | nil => exact Or.inl ⟨[], x :: a', by simp⟩
      | cons y v' =>
        rcases List.cons_prefix_cons.mp hpre with ⟨rfl, h'⟩
        rcases prefix_append_cases h' with h'' | ⟨w2, rfl, hw2⟩
        · exact Or.inl (infix_of_pfx (List.cons_prefix_cons.mpr ⟨rfl, h''⟩))
        · cases w2 with
          | nil =>
            exact Or.inl (by simpa using List.infix_rfl)
          | cons z w2' =>
            refine Or.inr (Or.inr ⟨y :: a', z :: w2', by simp, by simp, by simp,
              List.suffix_rfl, hw2⟩)
    · rcases ih hinf with h1 | h2 | ⟨v1, v2, hsp, hv1, hv2, hsfx, hpfx⟩
      · exact Or.inl (List.infix_cons_iff.mpr (Or.inr h1))
      · exact Or.inr (Or.inl h2)
      · exact Or.inr (Or.inr ⟨v1, v2, hsp, hv1, hv2, sfx_cons x hsfx, hpfx⟩)

theorem head_mem_of_pfx {w p R : Str} (hw : w ≠ []) (hp : p ≠ []) (h : w <+: p ++ R) :
    ∃ c, c ∈ w ∧ c ∈ p := by
  cases w with
  | nil => exact absurd rfl hw
  | cons y w' =>
    cases p with
    | nil => exact absurd rfl hp
    | cons e p' =>
      rw [List.cons_append] at h
      rcases List.cons_prefix_cons.mp h with ⟨rfl, _⟩
      exact ⟨y, List.mem_cons_self _ _, List.mem_cons_self _ _⟩

/-- If `v` does not occur in `a` nor in `R` and shares no character with
the nonempty separator `p`, it does not occur in `a ++ p ++ R`. -/
theorem not_infix_append_mid {v a p R : Str} (hv : v ≠ []) (hp : p ≠ [])
    (hchars : ∀ c ∈ v, c ∉ p) (ha : ¬ v <:+: a) (hR : ¬ v <:+: R) :
    ¬ v <:+: a ++ (p ++ R) := by
  intro h
  rcases infix_append_cases h with h1 | h2 | ⟨v1, v2, hsp, hv1, hv2, hsfx, hpfx⟩
  · exact ha h1
  · rcases infix_append_cases h2 with h3 | h4 | ⟨v1, v2, hsp, hv1, hv2, hsfx, hpfx⟩
    · cases v with
      | nil => exact hv rfl
      | cons c v' =>
        exact hchars c (List.mem_cons_self _ _) (List.IsInfix.subset h3 (List.mem_cons_self _ _))
    · exact hR h4
    · cases v1 with
      | nil => exact hv1 rfl
      | cons c v1' =>
        refine hchars c ?_ (List.IsSuffix.subset hsfx (List.mem_cons_self _ _))
        rw [hsp]
        exact List.mem_append_left _ (List.mem_cons_self _ _)
  · rcases head_mem_of_pfx hv2 hp hpfx with ⟨c, hc2, hcp⟩
    refine hchars c ?_ hcp
    rw [hsp]
    exact List.mem_append_right _ hc2

/-- Leftmost-match decomposition of `strReplace`: either there is no
occurrence of `old` and the string is returned unchanged, or the string
splits as `s0 ++ old ++ t` around the leftmost occurrence, the result is
`s0 ++ new ++ strReplace old new t`, and no occurrence of `old` starts
before the matched one. -/
theorem strReplace_decomp (old new : Str) (hold : old ≠ []) :
    ∀ s : Str,
      (¬ old <:+: s ∧ strReplace old new s = s) ∨
      ∃ s0 t, s = s0 ++ (old ++ t) ∧
        strReplace old new s = s0 ++ (new ++ strReplace old new t) ∧
        ¬ old <:+: (s0 ++ old.dropLast) := by
  intro s
  induction s with
  | nil =>
    refine Or.inl ⟨?_, rfl⟩
    intro h
    exact hold (List.infix_nil.mp h)
  | cons c rest ih =>
    by_cases h : old ≠ [] ∧ old <+: (c :: rest)
    · refine Or.inr ⟨[], List.drop old.length (c :: rest), ?_, ?_, ?_⟩
      · rcases h.2 with ⟨t', ht⟩
        rw [List.nil_append, ← ht, List.drop_left]
      · rw [strReplace_cons, if_pos h, List.nil_append]
      · rw [List.nil_append]
        intro hinf
        have hle := List.IsInfix.length_le hinf
        rw [List.length_dropLast] at hle
        have : 0 < old.length := List.length_pos.mpr hold
        omega
    · have hpre : ¬ old <+: (c :: rest) := fun hp => h ⟨hold, hp⟩
      rcases ih with ⟨hni, heq⟩ | ⟨s0, t, hs, heq, hno⟩
      · refine Or.inl ⟨?_, ?_⟩
        · intro hinf
          rcases List.infix_cons_iff.mp hinf with h1 | h2
          · exact hpre h1
          · exact hni h2
        · rw [strReplace_cons, if_neg h, heq]
      · refine Or.inr ⟨c :: s0, t, ?_, ?_, ?_⟩
        · rw [List.cons_append, ← hs]
        · rw [strReplace_cons, if_neg h, heq, List.cons_append]
        · rw [List.cons_append]
          intro hinf
          rcases List.infix_cons_iff.mp hinf with h1 | h2
          · apply hpre
            have hstep : s0 ++ old.dropLast <+: s0 ++ (old ++ t) := by
              rw [List.prefix_append_right_inj]
              exact List.IsPrefix.trans (List.dropLast_prefix old) (List.prefix_append old t)
            have : c :: (s0 ++ old.dropLast) <+: c :: (s0 ++ (old ++ t)) :=
              List.cons_prefix_cons.mpr ⟨rfl, hstep⟩
            rw [← hs] at this
            exact List.IsPrefix.trans h1 this
          · exact hno h2

/-- Replacing all occurrences of `v` by a nonempty `p` sharing no
character with `v` removes every occurrence of `v`. -/
theorem not_infix_strReplace_self (v p : Str) (hv : v ≠ []) (hp : p ≠ [])
    (hchars : ∀ c ∈ v, c ∉ p) : ∀ s : Str, ¬ v <:+: strReplace v p s := by
  intro s
  generalize hn : s.length = n
  induction n using Nat.strong_induction_on generalizing s with
  | _ n ih =>
    subst hn
    rcases strReplace_decomp v p hv s with ⟨hni, heq⟩ | ⟨s0, t, hs, heq, hno⟩
    · rw [heq]; exact hni
    · rw [heq]
      have hlt : t.length < s.length := by
        rw [hs]
        simp only [List.length_append]
        have : 0 < v.length := List.length_pos.mpr hv
        omega
      refine not_infix_append_mid hv hp hchars ?_ (ih t.length hlt t rfl)
      intro hv0
      apply hno
      exact List.IsInfix.trans hv0 (infix_of_pfx (List.prefix_append s0 v.dropLast))

/-- Replacing occurrences of any nonempty `old` by a nonempty `p` sharing
no character with `v` cannot introduce an occurrence of `v` that was not
already present. -/
theorem not_infix_strReplace (v old p : Str) (hv : v ≠ []) (hold : old ≠ [])
    (hp : p ≠ []) (hchars : ∀ c ∈ v, c ∉ p) :
    ∀ s : Str, ¬ v <:+: s → ¬ v <:+: strReplace old p s := by
  intro s
  generalize hn : s.length = n
  induction n using Nat.strong_induction_on generalizing s with
  | _ n ih =>
    subst hn
    intro hs
    rcases strReplace_decomp old p hold s with ⟨_, heq⟩ | ⟨s0, t, hseq, heq, _⟩
    · rw [heq]; exact hs
    · rw [heq]
      have hlt : t.length < s.length := by
        rw [hseq]
        simp only [List.length_append]
        have : 0 < old.length := List.length_pos.mpr hold
        omega
      have hs0 : ¬ v <:+: s0 := by
        intro hv0
        apply hs
        rw [hseq]
        exact List.IsInfix.trans hv0 (infix_of_pfx (List.prefix_append s0 (old ++ t)))
      have ht : ¬ v <:+: t := by
        intro hvt
        apply hs
        rw [hseq]
        exact List.IsInfix.trans hvt (infix_of_sfx ⟨s0 ++ old, by simp⟩)
      exact not_infix_append_mid hv hp hchars hs0 (ih t.length hlt t rfl ht)

theorem rsvLoop_reps_pfx (digest : Str → Str) (salt : Str) (items : List SpanItem)
    (text : Str) (reps : List Replacement) (cache : Cache) :
    reps <+: (rsvLoop digest salt items text reps cache).2.1 := by
  induction items generalizing text reps cache with
  | nil => exact List.prefix_rfl
  | cons item rest ih =>
    by_cases hc : item.value ≠ [] ∧ item.value <:+: text
    · rw [rsvLoop, if_pos hc]
      exact List.IsPrefix.trans (List.prefix_append reps _) (ih _ _ _)
    · rw [rsvLoop, if_neg hc]
      exact ih _ _ _

/-- Invariant of the substitution loop: if every recorded placeholder is
nonempty and shares no character with any recorded original value, then
after the loop no recorded original occurs in the text. -/
theorem rsvLoop_no_leak (digest : Str → Str) (salt : Str) (items : List SpanItem) :
    ∀ (text : Str) (reps : List Replacement) (cache : Cache),
      (∀ e ∈ (rsvLoop digest salt items text reps cache).2.1,
        e.replacement ≠ [] ∧
        ∀ e' ∈ (rsvLoop digest salt items text reps cache).2.1,
          ∀ c ∈ e'.original, c ∉ e.replacement) →
      (∀ e ∈ reps, e.original ≠ [] ∧ ¬ e.original <:+: text) →
      ∀ e ∈ (rsvLoop digest salt items text reps cache).2.1,
        e.original ≠ [] ∧ ¬ e.original <:+: (rsvLoop digest salt items text reps cache).1 := by
  induction items with
  | nil =>
    intro text reps cache _ A e he
    exact A e he
  | cons item rest ih =>
    intro text reps cache H A e he
    by_cases hc : item.value ≠ [] ∧ item.value <:+: text
    · rw [rsvLoop, if_pos hc] at H he ⊢
      have hmF : (⟨item.value, item.type,
          (generateAnonymousValue digest item.value item.type salt cache).1⟩ : Replacement) ∈
          (rsvLoop digest salt rest
            (strReplace item.value
              (generateAnonymousValue digest item.value item.type salt cache).1 text)
            (reps ++ [⟨item.value, item.type,
              (generateAnonymousValue digest item.value item.type salt cache).1⟩])
            (generateAnonymousValue digest item.value item.type salt cache).2).2.1 :=
        List.IsPrefix.subset (rsvLoop_reps_pfx _ _ _ _ _ _)
          (List.mem_append_right reps (List.mem_singleton.mpr rfl))
      have hpne : (generateAnonymousValue digest item.value item.type salt cache).1 ≠ [] :=
        (H _ hmF).1
      refine ih _ _ _ H ?_ e he
      intro e' he'
      rcases List.mem_append.mp he' with hmem | hmem
      · have hF : e' ∈ (rsvLoop digest salt rest
            (strReplace item.value
              (generateAnonymousValue digest item.value item.type salt cache).1 text)
            (reps ++ [⟨item.value, item.type,
              (generateAnonymousValue digest item.value item.type salt cache).1⟩])
            (generateAnonymousValue digest item.value item.type salt cache).2).2.1 :=
          List.IsPrefix.subset (rsvLoop_reps_pfx _ _ _ _ _ _)
            (List.mem_append_left _ hmem)
        refine ⟨(A e' hmem).1, ?_⟩
        exact not_infix_strReplace e'.original item.value
          (generateAnonymousValue digest item.value item.type salt cache).1
          (A e' hmem).1 hc.1 hpne ((H _ hmF).2 e' hF) text (A e' hmem).2
      · rw [List.mem_singleton.mp hmem]
        refine ⟨hc.1, ?_⟩
        exact not_infix_strReplace_self item.value
          (generateAnonymousValue digest item.value item.type salt cache).1
          hc.1 hpne ((H _ hmF).2 _ hmF) text
    · rw [rsvLoop, if_neg hc] at H he ⊢
      exact ih _ _ _ H A e he

/-- C1 (counterexample): the claim that the output contains no literal
occurrence of a replaced span value is false: for text `"A"` and the
single span `{value: "A", type: "a"}`, the value is found and replaced,
yet the output `[A_00000000]` still contains the literal `"A"`, the
placeholder embedding the uppercased category. -/
theorem replace_sensitive_values_leaks_value :
    ((replaceSensitiveValues digest0 (str "A") [⟨str "A", str "a"⟩] [] []).1.replacements.map
        (fun e => e.original) = [str "A"]) ∧
    (str "A") <:+:
      (replaceSensitiveValues digest0 (str "A") [⟨str "A", str "a"⟩] [] []).1.anonymized_text := by
  constructor
  · decide
  · decide

/-- C1 (amended): the no-leakage guarantee holds under the proviso that no
recorded original value shares a character with any inserted placeholder
(and the placeholders are nonempty, as generated ones always are): then
the returned text contains no literal occurrence of any replaced value —
neither a later replacement of a shorter or duplicate value nor a
placeholder insertion can reintroduce one.  Without the proviso the claim
fails, the placeholder itself being able to contain the value
(counterexample above). -/
theorem replace_sensitive_values_no_leakage_of_char_disjoint (digest : Str → Str)
    (text : Str) (values : List SpanItem) (salt : Str) (cache : Cache) (e : Replacement)
    (he : e ∈ (replaceSensitiveValues digest text values salt cache).1.replacements)
    (H : ∀ e' ∈ (replaceSensitiveValues digest text values salt cache).1.replacements,
      e'.replacement ≠ [] ∧
      ∀ e'' ∈ (replaceSensitiveValues digest text values salt cache).1.replacements,
        ∀ c ∈ e''.original, c ∉ e'.replacement) :
    ¬ e.original <:+:
      (replaceSensitiveValues digest text values salt cache).1.anonymized_text := by
  by_cases ht : text = []
  · have hnil : (replaceSensitiveValues digest text values salt cache).1.replacements = [] := by
      simp [replaceSensitiveValues, ht]
    rw [hnil] at he
    exact absurd he (List.not_mem_nil e)
  by_cases hv : values = []
  · have hnil : (replaceSensitiveValues digest text values salt cache).1.replacements = [] := by
      simp [replaceSensitiveValues, ht, hv]
    rw [hnil] at he
    exact absurd he (List.not_mem_nil e)
  have hreps : (replaceSensitiveValues digest text values salt cache).1.replacements =
      (rsvLoop digest salt (sortByLenDesc values) text [] cache).2.1 := by
    simp [replaceSensitiveValues, ht, hv]
  have htext : (replaceSensitiveValues digest text values salt cache).1.anonymized_text =
      (rsvLoop digest salt (sortByLenDesc values) text [] cache).1 := by
    simp [replaceSensitiveValues, ht, hv]
  rw [hreps] at he H
  rw [htext]
  refine (rsvLoop_no_leak digest salt (sortByLenDesc values) text [] cache H ?_ e he).2
  intro e' he'
  exact absurd he' (List.not_mem_nil e')

/-- C1 (witness): `"john smith met smith"` with spans `smith` and
`john smith` — all-lowercase values share no character with the inserted
uppercase placeholders, so neither value survives in the output. -/
theorem replace_sensitive_values_no_leakage_of_char_disjoint_witness :
    ((⟨str "smith", str "person_name", str "[PERSON_NAME_00000000]"⟩ : Replacement) ∈
      (replaceSensitiveValues digest0 (str "john smith met smith")
        [⟨str "smith", str "person_name"⟩, ⟨str "john smith", str "person_name"⟩]
        [] []).1.replacements ∧
    (∀ e' ∈ (replaceSensitiveValues digest0 (str "john smith met smith")
        [⟨str "smith", str "person_name"⟩, ⟨str "john smith", str "person_name"⟩]
        [] []).1.replacements,
      e'.replacement ≠ [] ∧
      ∀ e'' ∈ (replaceSensitiveValues digest0 (str "john smith met smith")
          [⟨str "smith", str "person_name"⟩, ⟨str "john smith", str "person_name"⟩]
          [] []).1.replacements,
        ∀ c ∈ e''.original, c ∉ e'.replacement)) ∧
    ¬ (⟨str "smith", str "person_name", str "[PERSON_NAME_00000000]"⟩ : Replacement).original <:+:
      (replaceSensitiveValues digest0 (str "john smith met smith")
        [⟨str "smith", str "person_name"⟩, ⟨str "john smith", str "person_name"⟩]
        [] []).1.anonymized_text :=
  ⟨⟨by decide, by decide⟩,
    replace_sensitive_values_no_leakage_of_char_disjoint digest0
      (str "john smith met smith")
      [⟨str "smith", str "person_name"⟩, ⟨str "john smith", str "person_name"⟩] [] []
      ⟨str "smith", str "person_name", str "[PERSON_NAME_00000000]"⟩
      (by decide) (by decide)⟩

/-! ## C6 — dynamically typed layer and error handling

The tools receive arbitrarily shaped Python values.  `PyVal` models the
value shapes relevant to the claims (strings, ints, lists, string-keyed
dicts); a raised Python exception is modelled as `Except.error` with the
exception's description, and the absence of an exception as `Except.ok`
(or a plain total function where the source can never raise). -/

inductive PyVal where
  | str : Str → PyVal
  | int : Int → PyVal
  | list : List PyVal → PyVal
  | dict : List (Str × PyVal) → PyVal

mutual
/-- Python `repr`, as used by `str()` on containers.  (Escaping of quotes
inside strings is elided; no call site modelled by a theorem reaches the
container or escaping cases.) -/
def pyRepr : PyVal → Str
  | .str s => '\'' :: s ++ ['\'']
  | .int n => (toString n).toList
  | .list xs => '[' :: pyReprList xs ++ [']']
  | .dict d => '\x7b' :: pyReprDict d ++ ['\x7d']
def pyReprList : List PyVal → Str
  | [] => []
  | [x] => pyRepr x
  | x :: xs => pyRepr x ++ ',' :: ' ' :: pyReprList xs
def pyReprDict : List (Str × PyVal) → Str
  | [] => []
  | [(k, v)] => pyRepr (.str k) ++ ':' :: ' ' :: pyRepr v
  | (k, v) :: xs => pyRepr (.str k) ++ ':' :: ' ' :: pyRepr v ++ ',' :: ' ' :: pyReprDict xs
end

/-- Python `str()`, as applied by f-string interpolation. -/
def pyStr : PyVal → Str
  | .str s => s
  | .int n => (toString n).toList
  | v => pyRepr v

/-- Python truthiness of the modelled values. -/
def pyTruthy : PyVal → Bool
  | .str s => !s.isEmpty
  | .int n => n != 0
  | .list xs => !xs.isEmpty
  | .dict d => !d.isEmpty

/-- Python `len`, raising `TypeError` on ints. -/
def pyLen : PyVal → Except Str Nat
  | .str s => .ok s.length
  | .list xs => .ok xs.length
  | .dict d => .ok d.length
  | .int _ => .error (str "TypeError: object of type int has no len()")

/-- Python `x.get(key, default)`, raising `AttributeError` when `x` is not
a mapping. -/
def pyGet : PyVal → Str → PyVal → Except Str PyVal
  | .dict d, k, dflt => .ok ((getk k d).getD dflt)
  | .int _, _, _ => .error (str "AttributeError: int object has no attribute get")
  | .str _, _, _ => .error (str "AttributeError: str object has no attribute get")
  | .list _, _, _ => .error (str "AttributeError: list object has no attribute get")

/-- Whether a value is a mapping (`isinstance(message, dict)`). -/
def PyVal.isDict : PyVal → Bool
  | .dict _ => true
  | _ => false

/-- `_generate_anonymous_value` called with an arbitrarily typed
`pii_type` (as `replace_sensitive_values` does with a span's `type`
field): the f-string cache key coerces it with `str()`, but on a cache
miss `pii_type.upper()` raises `AttributeError` for non-strings. -/
def generateAnonymousValueDyn (digest : Str → Str) (original : Str) (piiType : PyVal)
    (salt : Str) (cache : Cache) : Except Str (Str × Cache) :=
  match getk (pyStr piiType ++ ':' :: original) (bucketOf salt cache) with
  | some v => .ok (v, cache)
  | none =>
    match piiType with
    | .str t =>
        .ok (freshAnonymousValue digest original t salt,
          setk salt (setk (pyStr (.str t) ++ ':' :: original)
            (freshAnonymousValue digest original t salt) (bucketOf salt cache)) cache)
    | _ => .error (str "AttributeError: object has no attribute upper")

/-- Stable insertion by descending key, for the decorate-sort modelling of
Python's `sorted` with a key function. -/
def insertPairDesc (x : PyVal × Nat) : List (PyVal × Nat) → List (PyVal × Nat)
  | [] => [x]
  | y :: ys => if y.2 ≤ x.2 then x :: y :: ys else y :: insertPairDesc x ys

def sortPairsByKeyDesc (l : List (PyVal × Nat)) : List (PyVal × Nat) :=
  l.foldr insertPairDesc []

/-- The substitution loop of `replace_sensitive_values` over dynamically
typed span items: `item.get` raises on non-mappings, `if value and value
in anonymized` first tests truthiness and then raises `TypeError` when a
truthy `value` is not a string. -/
def rsvLoopDyn (digest : Str → Str) (salt : Str) :
    List PyVal → Str → List PyVal → Cache → Except Str (Str × List PyVal × Cache)
  | [], text, reps, cache => .ok (text, reps, cache)
  | item :: rest, text, reps, cache => do
    let value ← pyGet item (str "value") (.str [])
    let valueType ← pyGet item (str "type") (.str (str "sensitive_data"))
    if pyTruthy value then
      match value with
      | .str w =>
        if w <:+: text then do
          let g ← generateAnonymousValueDyn digest w valueType salt cache
          rsvLoopDyn digest salt rest (strReplace w g.1 text)
            (reps ++ [.dict [(str "original", .str w), (str "type", valueType),
              (str "replacement", .str g.1)]]) g.2
        else rsvLoopDyn digest salt rest text reps cache
      | _ => .error (str "TypeError: in string requires string as left operand")
    else rsvLoopDyn digest salt rest text reps cache

/-- `replace_sensitive_values` over dynamically typed `values`.  Python's
`sorted(values, key=...)` first computes the key of every element in list
order (raising there on malformed elements), then stable-sorts by the
keys. -/
def replaceSensitiveValuesDyn (digest : Str → Str) (text : Str) (values : List PyVal)
    (salt : Str) (cache : Cache) : Except Str (PyVal × Cache) :=
  if text = [] then
    .ok (.dict [(str "status", .str (str "success")),
      (str "anonymized_text", .str []), (str "replacements", .list [])], cache)
  else if values.isEmpty then
    .ok (.dict [(str "status", .str (str "success")),
      (str "anonymized_text", .str text), (str "replacements", .list [])], cache)
  else do
    let keys ← values.mapM (fun x => do
      let v ← pyGet x (str "value") (.str [])
      pyLen v)
    let out ← rsvLoopDyn digest salt
      ((sortPairsByKeyDesc (values.zip keys)).map (fun p => p.1)) text [] cache
    .ok (.dict [(str "status", .str (str "success")),
      (str "anonymized_text", .str out.1),
      (str "replacements", .list out.2.1),
      (str "items_replaced", .int out.2.1.length)], out.2.2)

/-- One id-field step of `anonymize_identifiers` over dynamically typed
field values: the f-string coercions make the generator call equal to the
typed generator applied to the `str()` rendering of the value; a field
name is always a string, so `.upper()` cannot raise here. -/
def anonIdFieldDyn (digest : Str → Str) (message : List (Str × PyVal)) (salt : Str)
    (acc : List (Str × PyVal) × List Str × Cache) (field : Str) :
    List (Str × PyVal) × List Str × Cache :=
  match getk field message with
  | some v =>
      if pyTruthy v then
        let g := generateAnonymousValue digest (pyStr v) field salt acc.2.2
        (setk field (.str g.1) acc.1, acc.2.1 ++ [field], g.2)
      else acc
  | none => acc

/-- One composite-key step of `anonymize_identifiers` over dynamically
typed field values: presence alone triggers. -/
def anonCompositeKeyDyn (digest : Str → Str) (message : List (Str × PyVal))
    (salt field cat : Str) (acc : List (Str × PyVal) × List Str × Cache) :
    List (Str × PyVal) × List Str × Cache :=
  match getk field message with
  | some v =>
      let g := generateAnonymousValue digest (pyStr v) cat salt acc.2.2
      (setk field (.str g.1) acc.1, acc.2.1 ++ [field], g.2)
  | none => acc

/-- `anonymize_identifiers` (lines 167–218) in full, including the
`isinstance(message, dict)` check: a non-mapping input yields the
structured error dict; the function never raises. -/
def anonymizeIdentifiersDyn (digest : Str → Str) (message : PyVal) (salt : Str)
    (cache : Cache) : PyVal × Cache :=
  match message with
  | .dict d =>
      let acc0 := idFields.foldl (anonIdFieldDyn digest d salt) (d, [], cache)
      let acc1 := anonCompositeKeyDyn digest d salt (str "PK") (str "pk") acc0
      let acc2 := anonCompositeKeyDyn digest d salt (str "SK") (str "sk") acc1
      let acc3 := anonCompositeKeyDyn digest d salt (str "SKMessage") (str "sk_message") acc2
      (.dict [(str "status", .str (str "success")),
        (str "anonymized_message", .dict acc3.1),
        (str "anonymizations_performed", .list (acc3.2.1.map PyVal.str))], acc3.2.2)
  | _ => (.dict [(str "status", .str (str "error")),
      (str "error_message", .str (str "Message must be a dictionary"))], cache)

/-- C6 (counterexample): the claim says malformed span lists are reported
via a structured error result; in fact `replace_sensitive_values` has no
shape check and raises: a span element that is not a mapping hits
`AttributeError` in the sort-key computation (`x.get`). -/
theorem replace_sensitive_values_raises_on_non_mapping_span :
    replaceSensitiveValuesDyn digest0 (str "x") [.int 1] [] [] =
      .error (str "AttributeError: int object has no attribute get") := by
  rfl

/-- C6 (amended): only `anonymize_identifiers` reports malformed input via
a structured `status: "error"` result (for any non-mapping message, without
raising); `replace_sensitive_values` instead raises an uncaught exception
on a span list whose first element is not a mapping (`AttributeError`) or
has a truthy non-string `value` (`TypeError` from `len` in the sort key). -/
theorem malformed_input_handling (digest : Str → Str) (m : PyVal) (salt text : Str)
    (values : List PyVal) (cache : Cache)
    (hm : m.isDict = false) (htext : text ≠ []) :
    anonymizeIdentifiersDyn digest m salt cache =
      (.dict [(str "status", .str (str "error")),
        (str "error_message", .str (str "Message must be a dictionary"))], cache) ∧
    replaceSensitiveValuesDyn digest text (.int 1 :: values) salt cache =
      .error (str "AttributeError: int object has no attribute get") ∧
    replaceSensitiveValuesDyn digest text (.dict [(str "value", .int 1)] :: values)
        salt cache =
      .error (str "TypeError: object of type int has no len()") := by
  refine ⟨?_, ?_, ?_⟩
  · cases m with
    | dict d => simp [PyVal.isDict] at hm
    | str s => rfl
    | int n => rfl
    | list xs => rfl
  · rw [replaceSensitiveValuesDyn, if_neg htext]
    rfl
  · rw [replaceSensitiveValuesDyn, if_neg htext]
    rfl

/-- C6 (witness). -/
theorem malformed_input_handling_witness :
    ((PyVal.int 5).isDict = false ∧ str "x" ≠ []) ∧
    (anonymizeIdentifiersDyn digest0 (.int 5) [] [] =
      (.dict [(str "status", .str (str "error")),
        (str "error_message", .str (str "Message must be a dictionary"))], []) ∧
    replaceSensitiveValuesDyn digest0 (str "x") [.int 1] [] [] =
      .error (str "AttributeError: int object has no attribute get") ∧
    replaceSensitiveValuesDyn digest0 (str "x") [.dict [(str "value", .int 1)]] [] [] =
      .error (str "TypeError: object of type int has no len()")) :=
  ⟨⟨by decide, by decide⟩,
    malformed_input_handling digest0 (.int 5) [] (str "x") [] [] (by decide) (by decide)⟩

end FeedbackAnalyzer
